import Mathlib

/-!
# Verification of the LLMPaperReader metadata store and cover pipeline

Shallow embedding of `src/server/src/index.ts` (the final revision in that
file): the JSON-backed index store (`readIndex`, `writeIndex`,
`withIndexLock`, `atomicWriteJson`), the cover-generation coordinator
(`covergenAcquire` / `covergenRelease`, `generateCoverWithPython`), the
placeholder detector (`pngDimensionsFromHeader`, `isPlaceholderCover`),
the path resolution (`isValidId`, `resolvePaperDir`) and the relevant
HTTP handlers (`POST /papers`, `GET /papers/:id/cover`).

Filesystem contents are modelled at the value level: the index file holds
either nothing, unparseable text, or a JSON value; image files hold byte
lists.  Node's event loop is modelled where a claim is about concurrency:
each synchronous stretch of JS between `await` points is one atomic step.
-/

namespace PaperReader

/-- JSON values, as produced by `JSON.parse` / consumed by `JSON.stringify`.
Numbers are modelled as integers (all numbers in this store are sizes and
counts). -/
inductive Json where
  | null : Json
  | bool (b : Bool) : Json
  | num (n : Int) : Json
  | str (s : String) : Json
  | arr (xs : List Json) : Json
  | obj (fields : List (String × Json)) : Json
deriving Inhabited

/-- `Array.isArray` in `readIndex`. -/
def Json.isArr : Json → Bool
  | .arr _ => true
  | _ => false

/-- State of the index file on disk: absent (`readFile` throws ENOENT),
present but not parseable as JSON (`JSON.parse` throws), or holding a
parsed JSON value. -/
inductive IndexFileState where
  | missing : IndexFileState
  | notJson : IndexFileState
  | content (j : Json) : IndexFileState
deriving Inhabited

/-- `readIndex` from `index.ts`:
```
try {
  const raw = await fsp.readFile(INDEX_FILE, 'utf8')
  const parsed = JSON.parse(raw)
  return Array.isArray(parsed) ? parsed : []
} catch {
  return []
}
```
A missing file and unparseable text both throw and are caught; a parsed
non-array yields `[]`; a parsed array is returned as is. -/
def readIndexFS : IndexFileState → List Json
  | .missing => []
  | .notJson => []
  | .content j => match j with
    | .arr xs => xs
    | _ => []

/-! ## Atomic file writer (`atomicWriteJson`) -/

/-- The two files `atomicWriteJson` touches: the target path and its
sibling temp path `<target>.tmp`.  `none` means the file is absent. -/
structure AWState where
  target : Option Json
  tmp : Option Json

/-- `atomicWriteJson` from `index.ts`:
```
const tmpPath = `${filePath}.tmp`
await fsp.writeFile(tmpPath, JSON.stringify(value, null, 2))
try {
  await fsp.rename(tmpPath, filePath)
} catch (err) {
  // Windows can fail to rename over an existing file; fall back to replace.
  await fsp.rm(filePath, { force: true })
  await fsp.rename(tmpPath, filePath)
}
```
Each fallible filesystem call gets an outcome flag (`true` = the call
succeeds).  The returned `Bool` is `true` when the whole operation
completes, `false` when it throws.  A failed `writeFile` may leave the
temp file truncated (modelled as absent); it does not touch the target.
A successful `rename` moves the temp file over the target; a failed one
changes nothing.  `rm` with `force` removes the target when it succeeds. -/
def atomicWriteJson (value : Json) (writeOk ren1Ok rmOk ren2Ok : Bool)
    (fs : AWState) : Bool × AWState :=
  if !writeOk then
    (false, { fs with tmp := none })
  else
    let fs1 : AWState := { fs with tmp := some value }
    if ren1Ok then
      (true, { target := some value, tmp := none })
    else if !rmOk then
      (false, fs1)
    else if ren2Ok then
      (true, { target := some value, tmp := none })
    else
      (false, { target := none, tmp := some value })

/-- `path.dirname`, modelled on character lists: everything up to and
including the last `/`. -/
def dirnameOf (p : List Char) : List Char :=
  (p.reverse.dropWhile (fun c => c ≠ '/')).reverse

/-- The sibling temp path used by `atomicWriteJson`. -/
def tmpPathOf (p : List Char) : List Char :=
  p ++ ".tmp".data

theorem dropWhile_append_of_all {α : Type} (p : α → Bool) (l1 l2 : List α)
    (h : ∀ a ∈ l1, p a = true) :
    (l1 ++ l2).dropWhile p = l2.dropWhile p := by
  induction l1 with
  | nil => rfl
  | cons a t ih =>
      have ha : p a = true := h a (List.mem_cons_self a t)
      simp only [List.cons_append, List.dropWhile_cons, ha, if_true]
      exact ih (fun b hb => h b (List.mem_cons_of_mem a hb))

/-- Appending `.tmp` does not change the directory part of a path. -/
theorem dirname_tmpPath (p : List Char) : dirnameOf (tmpPathOf p) = dirnameOf p := by
  unfold dirnameOf tmpPathOf
  rw [List.reverse_append]
  rw [dropWhile_append_of_all _ (".tmp".data.reverse) p.reverse (by decide)]

/-- C6 counterexample: when the first rename fails, the fallback `rm`
succeeds, and the retry rename then fails, the operation raises an error
but the original file at the target is gone — not "left untouched" as the
claim states. -/
theorem atomicWrite_counterexample_c6 :
    (atomicWriteJson (Json.num 1) true false true false
        { target := some (Json.num 0), tmp := none }).1 = false ∧
    (atomicWriteJson (Json.num 1) true false true false
        { target := some (Json.num 0), tmp := none }).2.target = none ∧
    (atomicWriteJson (Json.num 1) true false true false
        { target := some (Json.num 0), tmp := none }).2.target ≠ some (Json.num 0) := by
  refine ⟨rfl, rfl, by simp [atomicWriteJson]⟩

/-- C6 (amended): the bytes are written to a same-directory temporary path
and renamed over the target, with a remove-then-rename fallback on rename
failure.  The operation succeeds exactly when the write succeeds and
either rename lands (directly, or after a successful fallback removal);
on success the target holds the new value.  If the write or rename fails
the operation raises an I/O error and the target still holds the original
file — except on the one path where the fallback removed the target and
the retry rename also failed, in which case the target is absent.  The
target never holds the partially-written data. -/
theorem atomicWrite_spec_c6 (value : Json) (writeOk ren1Ok rmOk ren2Ok : Bool)
    (fs : AWState) :
    (∀ p : List Char, dirnameOf (tmpPathOf p) = dirnameOf p) ∧
    ((atomicWriteJson value writeOk ren1Ok rmOk ren2Ok fs).1 = true ↔
      (writeOk = true ∧ (ren1Ok = true ∨ (rmOk = true ∧ ren2Ok = true)))) ∧
    ((atomicWriteJson value writeOk ren1Ok rmOk ren2Ok fs).1 = true →
      (atomicWriteJson value writeOk ren1Ok rmOk ren2Ok fs).2.target = some value) ∧
    ((atomicWriteJson value writeOk ren1Ok rmOk ren2Ok fs).1 = false →
      (atomicWriteJson value writeOk ren1Ok rmOk ren2Ok fs).2.target = fs.target ∨
      (writeOk = true ∧ ren1Ok = false ∧ rmOk = true ∧ ren2Ok = false ∧
        (atomicWriteJson value writeOk ren1Ok rmOk ren2Ok fs).2.target = none)) := by
  refine ⟨dirname_tmpPath, ?_, ?_, ?_⟩ <;>
    cases writeOk <;> cases ren1Ok <;> cases rmOk <;> cases ren2Ok <;>
      simp [atomicWriteJson]

/-- Witness for `atomicWrite_spec_c6`: a successful write-and-rename over
an existing file installs the new value; a failed write leaves the
original in place. -/
theorem atomicWrite_spec_c6_witness :
    (atomicWriteJson (Json.num 7) true true true true
        { target := some (Json.num 0), tmp := none }).2.target = some (Json.num 7) ∧
    (atomicWriteJson (Json.num 7) false true true true
        { target := some (Json.num 0), tmp := none }).2.target = some (Json.num 0) := by
  constructor
  · exact (atomicWrite_spec_c6 (Json.num 7) true true true true
      { target := some (Json.num 0), tmp := none }).2.2.1 rfl
  · have h := (atomicWrite_spec_c6 (Json.num 7) false true true true
      { target := some (Json.num 0), tmp := none }).2.2.2 rfl
    rcases h with h | h
    · exact h
    · exact absurd h.1 (by decide)

/-! ## Index mutation queue (`withIndexLock`)

`withIndexLock` keeps a promise chain `indexWriteChain`; each call
synchronously appends itself to the chain, awaits the previous tail, runs
its read-modify-write body, and only then resolves its own link:
```
const prev = indexWriteChain
indexWriteChain = new Promise((resolve) => { release = resolve })
await prev
try { return await fn() } finally { release?.() }
```
So the bodies of queued mutations execute one after another in queue
order: every action (the `readIndex` and the `writeIndex`) of call `i`
happens before every action of call `j` for `i < j`.  We model each
mutation as a `read` action (its `readIndex`) followed by a `write`
action (its `writeIndex` of the mutated value) and executions as lists of
such actions; the lock discipline is the hypothesis that the action list
is ordered by queue position. -/

/-- One atomic step of a queued index mutation: call `i` reading the
current index, or call `i` writing its mutated index. -/
inductive MutAction where
  | read (i : Nat)
  | write (i : Nat)
deriving DecidableEq

/-- The queue position of the call performing an action. -/
def MutAction.callId : MutAction → Nat
  | .read i => i
  | .write i => i

/-- Execution state: the index file plus, per call, the index value that
call observed with its `readIndex` (if it has read yet). -/
structure MutRunState where
  file : IndexFileState
  observed : Nat → Option (List Json)

/-- Executing one action.  `muts i` is the mutation function of call `i`
(e.g. `unshift item` for create, `filter (id ≠ x)` for delete).  A read
records `readIndexFS` of the current file; a write persists the mutated
value through the atomic writer, leaving the file a JSON array. -/
def mutStep (muts : Nat → List Json → List Json) (st : MutRunState) :
    MutAction → MutRunState
  | .read i =>
      { st with observed := fun j => if j = i then some (readIndexFS st.file) else st.observed j }
  | .write i =>
      match st.observed i with
      | some v => { st with file := .content (.arr (muts i v)) }
      | none => st

/-- Run a schedule of actions from a starting state. -/
def mutRun (muts : Nat → List Json → List Json) (sched : List MutAction)
    (st : MutRunState) : MutRunState :=
  sched.foldl (mutStep muts) st

/-- The two actions of one mutation, in program order. -/
def callActions (i : Nat) : List MutAction := [.read i, .write i]

/-- The schedule in which calls `lo, lo+1, …, lo+n-1` run back to back in
queue order — the only schedule the promise chain permits. -/
def serialSchedule (lo n : Nat) : List MutAction :=
  (List.range' lo n).flatMap callActions

/-- Sequential application of the first `n` mutations. -/
def applySeq (muts : Nat → List Json → List Json) (n : Nat) (v : List Json) : List Json :=
  (List.range n).foldl (fun acc i => muts i acc) v

/-- A schedule respects the lock's queue discipline: actions appear in
nondecreasing queue-position order (call `i` completes before call `j`
starts, for `i < j`). -/
def QueueOrdered (sched : List MutAction) : Prop :=
  sched.Pairwise (fun a b => a.callId ≤ b.callId)

theorem applySeq_succ (muts : Nat → List Json → List Json) (n : Nat) (v : List Json) :
    applySeq muts (n + 1) v = muts n (applySeq muts n v) := by
  unfold applySeq
  rw [List.range_succ, List.foldl_append]
  rfl

theorem sorted_split_min (lo : Nat) (l : List MutAction)
    (hord : QueueOrdered l) (hlo : ∀ a ∈ l, lo ≤ a.callId) :
    l = l.filter (fun a => a.callId == lo) ++ l.filter (fun a => a.callId != lo) ∧
    (∀ a ∈ l.filter (fun a => a.callId != lo), lo + 1 ≤ a.callId) := by
  induction l with
  | nil => exact ⟨rfl, by simp⟩
  | cons a t ih =>
      rw [QueueOrdered, List.pairwise_cons] at hord
      obtain ⟨hat, htord⟩ := hord
      have hta : ∀ b ∈ t, lo ≤ b.callId := fun b hb => hlo b (List.mem_cons_of_mem a hb)
      by_cases hca : a.callId = lo
      · have ih' := ih htord hta
        constructor
        · simp only [List.filter_cons, hca]
          simp only [beq_self_eq_true, if_true, bne_self_eq_false, Bool.false_eq_true, if_false]
          rw [List.cons_append]
          exact congrArg (a :: ·) ih'.1
        · intro b hb
          simp only [List.filter_cons, hca, bne_self_eq_false, Bool.false_eq_true, if_false] at hb
          exact ih'.2 b hb
      · have halo : lo + 1 ≤ a.callId :=
          Nat.lt_of_le_of_ne (hlo a (List.mem_cons_self a t)) (fun h => hca h.symm)
        have htne : ∀ b ∈ t, (b.callId != lo) = true := by
          intro b hb
          have : lo + 1 ≤ b.callId := Nat.le_trans halo (hat b hb)
          simp [bne_iff_ne]
          omega
        have htlo : ∀ b ∈ t, (b.callId == lo) = false := by
          intro b hb
          have := htne b hb
          simpa [bne] using this
        constructor
        · have h1 : (a :: t).filter (fun a => a.callId == lo) = [] := by
            rw [List.filter_eq_nil_iff]
            intro b hb
            rcases List.mem_cons.mp hb with rfl | hb'
            · simpa using hca
            · simp [htlo b hb']
          have h2 : (a :: t).filter (fun a => a.callId != lo) = a :: t := by
            rw [List.filter_eq_self]
            intro b hb
            rcases List.mem_cons.mp hb with rfl | hb
            · simp [bne_iff_ne, hca]
            · exact htne b hb
          rw [h1, h2, List.nil_append]
        · intro b hb
          have hb' : b ∈ a :: t := List.mem_of_mem_filter hb
          rcases List.mem_cons.mp hb' with rfl | hb''
          · exact halo
          · exact Nat.le_trans halo (hat b hb'')

theorem queueOrdered_eq_serial (n : Nat) :
    ∀ (lo : Nat) (sched : List MutAction),
      QueueOrdered sched →
      (∀ a ∈ sched, lo ≤ a.callId ∧ a.callId < lo + n) →
      (∀ i, lo ≤ i → i < lo + n →
        sched.filter (fun a => a.callId == i) = callActions i) →
      sched = serialSchedule lo n := by
  induction n with
  | zero =>
      intro lo sched _ hmem _
      have : sched = [] := by
        cases sched with
        | nil => rfl
        | cons a t =>
            have := hmem a (List.mem_cons_self a t)
            omega
      simp [this, serialSchedule, List.range']
  | succ n ih =>
      intro lo sched hord hmem hfil
      obtain ⟨hsplit, hrest⟩ :=
        sorted_split_min lo sched hord (fun a ha => (hmem a ha).1)
      have hF1 : sched.filter (fun a => a.callId == lo) = callActions lo :=
        hfil lo (Nat.le_refl lo) (by omega)
      set F2 := sched.filter (fun a => a.callId != lo) with hF2def
      have hF2ord : QueueOrdered F2 := List.Pairwise.filter _ hord
      have hF2mem : ∀ a ∈ F2, lo + 1 ≤ a.callId ∧ a.callId < lo + 1 + n := by
        intro a ha
        refine ⟨hrest a ha, ?_⟩
        have := (hmem a (List.mem_of_mem_filter ha)).2
        omega
      have hF2fil : ∀ i, lo + 1 ≤ i → i < lo + 1 + n →
          F2.filter (fun a => a.callId == i) = callActions i := by
        intro i hi1 hi2
        rw [hF2def, List.filter_filter]
        have : ∀ a ∈ sched,
            ((a.callId == i) && (a.callId != lo)) = (a.callId == i) := by
          intro a _
          by_cases h : a.callId = i
          · simp [h, bne_iff_ne]
            omega
          · simp [h]
        rw [List.filter_congr this]
        exact hfil i (by omega) (by omega)
      have hF2eq : F2 = serialSchedule (lo + 1) n := ih (lo + 1) F2 hF2ord hF2mem hF2fil
      have hserial : serialSchedule lo (n + 1) = callActions lo ++ serialSchedule (lo + 1) n := by
        simp [serialSchedule, List.range'_succ]
      rw [hserial, ← hF1, ← hF2eq]
      exact hsplit

theorem mutRun_serial (muts : Nat → List Json → List Json) (s0 : IndexFileState) :
    ∀ n : Nat,
      (mutRun muts (serialSchedule 0 n) ⟨s0, fun _ => none⟩).observed =
        (fun i => if i < n then some (applySeq muts i (readIndexFS s0)) else none) ∧
      readIndexFS (mutRun muts (serialSchedule 0 n) ⟨s0, fun _ => none⟩).file =
        applySeq muts n (readIndexFS s0) ∧
      (0 < n → (mutRun muts (serialSchedule 0 n) ⟨s0, fun _ => none⟩).file =
        .content (.arr (applySeq muts n (readIndexFS s0)))) := by
  intro n
  induction n with
  | zero =>
      refine ⟨?_, rfl, by omega⟩
      funext i
      simp [mutRun, serialSchedule, List.range']
  | succ n ih =>
      obtain ⟨ihobs, ihread, _⟩ := ih
      have hsched : serialSchedule 0 (n + 1) = serialSchedule 0 n ++ callActions n := by
        have h : List.range' 0 (n + 1) = List.range' 0 n ++ [n] := by
          rw [List.range'_1_concat, Nat.zero_add]
        simp [serialSchedule, h]
      set st := mutRun muts (serialSchedule 0 n) ⟨s0, fun _ => none⟩ with hst
      have hrun : mutRun muts (serialSchedule 0 (n + 1)) ⟨s0, fun _ => none⟩ =
          mutStep muts (mutStep muts st (.read n)) (.write n) := by
        rw [hsched]
        simp only [mutRun, List.foldl_append, callActions]
        rfl
      have hreadobs : (mutStep muts st (.read n)).observed =
          fun j => if j = n then some (readIndexFS st.file) else st.observed j := rfl
      have hro : (mutStep muts st (.read n)).observed n =
          some (applySeq muts n (readIndexFS s0)) := by
        rw [hreadobs]
        simp [ihread]
      have hfinal : mutStep muts (mutStep muts st (.read n)) (.write n) =
          { file := .content (.arr (applySeq muts (n + 1) (readIndexFS s0))),
            observed := (mutStep muts st (.read n)).observed } := by
        rw [show mutStep muts (mutStep muts st (.read n)) (.write n) =
              match (mutStep muts st (.read n)).observed n with
              | some v => { mutStep muts st (.read n) with file := .content (.arr (muts n v)) }
              | none => mutStep muts st (.read n) from rfl]
        rw [hro, applySeq_succ]
      refine ⟨?_, ?_, fun _ => ?_⟩
      · rw [hrun, hfinal]
        funext i
        show (mutStep muts st (.read n)).observed i = _
        rw [hreadobs]
        by_cases hin : i = n
        · subst hin
          simp [ihread]
        · have hsi : st.observed i =
              if i < n then some (applySeq muts i (readIndexFS s0)) else none := by
            rw [ihobs]
          simp only [hin, if_false, hsi]
          by_cases hlt : i < n
          · have h1 : i < n + 1 := by omega
            simp [hlt, h1]
          · have h1 : ¬ i < n + 1 := by omega
            simp [hlt, h1]
      · rw [hrun, hfinal]
        rfl
      · rw [hrun, hfinal]

/-- C1: any execution of `N` queued index mutations that respects the
lock's queue discipline (each mutation's actions run after all actions of
previously queued mutations) is the back-to-back serial schedule; it
leaves the index file a syntactically valid JSON array equal to the
sequential application of all `N` mutations in queue order, and each
mutation observed as its "before" state exactly the result of all
mutations queued before it — no mutation reads a stale base, none is
lost. -/
theorem index_mutation_queue_c1
    (muts : Nat → List Json → List Json) (n : Nat) (sched : List MutAction)
    (s0 : IndexFileState)
    (hord : QueueOrdered sched)
    (hmem : ∀ a ∈ sched, a.callId < n)
    (hfil : ∀ i, i < n → sched.filter (fun a => a.callId == i) = callActions i)
    (hn : 0 < n) :
    (mutRun muts sched ⟨s0, fun _ => none⟩).file =
      .content (.arr (applySeq muts n (readIndexFS s0))) ∧
    (∀ i, i < n →
      (mutRun muts sched ⟨s0, fun _ => none⟩).observed i =
        some (applySeq muts i (readIndexFS s0))) := by
  have hsched : sched = serialSchedule 0 n := by
    refine queueOrdered_eq_serial n 0 sched hord ?_ ?_
    · intro a ha
      exact ⟨Nat.zero_le _, by simpa using hmem a ha⟩
    · intro i _ hi
      exact hfil i (by simpa using hi)
  obtain ⟨hobs, _, hfile⟩ := mutRun_serial muts s0 n
  subst hsched
  refine ⟨hfile hn, ?_⟩
  intro i hi
  rw [hobs]
  simp [hi]

/-- Witness for `index_mutation_queue_c1`: two queued mutations (call 0
prepends `"a"`, call 1 prepends `"b"`) run under the lock discipline on
an initially missing index file; the final file is the JSON array
`["b","a"]`, call 0 observed `[]` and call 1 observed `["a"]`. -/
theorem index_mutation_queue_c1_witness :
    (mutRun (fun i l => Json.str (if i = 0 then "a" else "b") :: l)
        [.read 0, .write 0, .read 1, .write 1] ⟨.missing, fun _ => none⟩).file =
      .content (.arr [Json.str "b", Json.str "a"]) ∧
    (mutRun (fun i l => Json.str (if i = 0 then "a" else "b") :: l)
        [.read 0, .write 0, .read 1, .write 1] ⟨.missing, fun _ => none⟩).observed 0 =
      some [] ∧
    (mutRun (fun i l => Json.str (if i = 0 then "a" else "b") :: l)
        [.read 0, .write 0, .read 1, .write 1] ⟨.missing, fun _ => none⟩).observed 1 =
      some [Json.str "a"] := by
  have h := index_mutation_queue_c1
    (fun i l => Json.str (if i = 0 then "a" else "b") :: l) 2
    [.read 0, .write 0, .read 1, .write 1] .missing
    (by unfold QueueOrdered; decide)
    (by decide)
    (by decide)
    (by decide)
  refine ⟨h.1, ?_, ?_⟩
  · exact h.2 0 (by decide)
  · exact h.2 1 (by decide)

/-! ## Cover generation coordinator: the concurrency gate

```
async function covergenAcquire(): Promise<void> {
  if (covergenActive < COVERGEN_MAX_CONCURRENCY) {
    covergenActive += 1
    return
  }
  await new Promise<void>((resolve) => covergenWaiters.push(resolve))
  covergenActive += 1
}
function covergenRelease(): void {
  covergenActive = Math.max(0, covergenActive - 1)
  const next = covergenWaiters.shift()
  if (next) next()
}
```
We model the gate as a transition system whose atomic steps are the
synchronous stretches of this code: the fast acquire path, the enqueue
path, the release (decrement plus waking the FIFO head), and the woken
waiter's resumption (`covergenActive += 1` after its promise resolves).
`covergenAcquire` is only ever entered from a fresh event-loop turn, and
a woken waiter's continuation is a microtask that runs before the next
turn, so no acquire can run while a wakeup from `covergenRelease` is
still pending; the guards `woken = []` on the acquire steps encode that
scheduling fact.  Ghost fields `enqueued` and `granted` record the
history needed to state FIFO granting. -/

/-- How one external renderer invocation ends: clean exit 0, non-zero
exit, spawn error, or the 25s wall-clock timeout. -/
inductive RenderOutcome where
  | success : RenderOutcome
  | exitNonzero (code : Int) : RenderOutcome
  | spawnError : RenderOutcome
  | timeout : RenderOutcome
deriving DecidableEq

/-- State of the covergen gate.  `active` is `covergenActive`; `waiters`
is `covergenWaiters` (tickets in push order); `woken` are waiters whose
`resolve()` already ran but whose `covergenActive += 1` has not;
`holders` are the calls currently between a completed acquire and their
release.  `enqueued`/`granted` are ghost history (all tickets ever
enqueued / ever resumed, in order). -/
structure SemState where
  active : Nat
  waiters : List Nat
  woken : List Nat
  holders : List Nat
  enqueued : List Nat
  granted : List Nat
deriving DecidableEq

/-- The gate before any call. -/
def semInit : SemState := ⟨0, [], [], [], [], []⟩

inductive SemEvent where
  | acquireFast (i : Nat)
  | acquireWait (i : Nat)
  | release (i : Nat)
  | resume
deriving DecidableEq

/-- One atomic step of the gate; `none` when the event is not enabled in
this state (guards include the event-loop constraint that acquires only
run with no pending wakeup). -/
def semStep (K : Nat) (s : SemState) : SemEvent → Option SemState
  | .acquireFast i =>
      if s.woken = [] ∧ s.active < K then
        some { s with active := s.active + 1, holders := i :: s.holders }
      else none
  | .acquireWait i =>
      if s.woken = [] ∧ ¬ s.active < K then
        some { s with waiters := s.waiters ++ [i], enqueued := s.enqueued ++ [i] }
      else none
  | .release i =>
      if i ∈ s.holders then
        some { s with
          active := s.active - 1,
          holders := s.holders.erase i,
          woken := s.woken ++ s.waiters.take 1,
          waiters := s.waiters.tail }
      else none
  | .resume =>
      match s.woken with
      | [] => none
      | j :: rest =>
          some { s with
            active := s.active + 1,
            woken := rest,
            holders := j :: s.holders,
            granted := s.granted ++ [j] }

/-- Run a list of events; fails if any event is not enabled. -/
def semRun (K : Nat) (evs : List SemEvent) (s : SemState) : Option SemState :=
  evs.foldlM (semStep K) s

/-- The inductive invariant of the gate: the active count tracks the
holders, active jobs plus pending wakeups never exceed `K`, and the
grant history plus the pending/waiting queues replay the enqueue history
in order. -/
def SemInv (K : Nat) (s : SemState) : Prop :=
  s.active = s.holders.length ∧
  s.active + s.woken.length ≤ K ∧
  s.granted ++ s.woken ++ s.waiters = s.enqueued

theorem take_one_append_tail {α : Type} (xs : List α) : xs.take 1 ++ xs.tail = xs := by
  cases xs <;> simp

theorem semStep_inv {K : Nat} {s s' : SemState} {e : SemEvent}
    (hinv : SemInv K s) (hstep : semStep K s e = some s') : SemInv K s' := by
  obtain ⟨hcount, hbound, hfifo⟩ := hinv
  cases e with
  | acquireFast i =>
      simp only [semStep] at hstep
      split at hstep
      · rename_i hg
        cases hstep
        refine ⟨by simp [hcount], ?_, hfifo⟩
        have h2 := hg.2
        rw [hg.1] at hbound ⊢
        simp only [List.length_nil] at hbound ⊢
        omega
      · exact absurd hstep (by simp)
  | acquireWait i =>
      simp only [semStep] at hstep
      split at hstep
      · rename_i hg
        cases hstep
        refine ⟨hcount, hbound, ?_⟩
        show s.granted ++ s.woken ++ (s.waiters ++ [i]) = s.enqueued ++ [i]
        rw [← List.append_assoc, hfifo]
      · exact absurd hstep (by simp)
  | release i =>
      simp only [semStep] at hstep
      split at hstep
      · rename_i hmem
        cases hstep
        have hlen : s.holders.length ≥ 1 := List.length_pos.mpr (by
          intro h; rw [h] at hmem; exact (List.not_mem_nil i) hmem)
        refine ⟨?_, ?_, ?_⟩
        · show s.active - 1 = (s.holders.erase i).length
          rw [List.length_erase_of_mem hmem]
          omega
        · show s.active - 1 + (s.woken ++ s.waiters.take 1).length ≤ K
          have htake : (s.waiters.take 1).length ≤ 1 := by
            cases s.waiters <;> simp
          simp only [List.length_append]
          omega
        · show s.granted ++ (s.woken ++ s.waiters.take 1) ++ s.waiters.tail = s.enqueued
          simp only [List.append_assoc]
          rw [take_one_append_tail]
          simpa [List.append_assoc] using hfifo
      · exact absurd hstep (by simp)
  | resume =>
      simp only [semStep] at hstep
      split at hstep
      · cases hstep
      · rename_i j rest hw
        cases hstep
        refine ⟨by simp [hcount], ?_, ?_⟩
        · rw [hw] at hbound
          simp only [List.length_cons] at hbound
          simp only [List.length_cons]
          omega
        · show s.granted ++ [j] ++ rest ++ s.waiters = s.enqueued
          rw [← hfifo, hw]
          simp

theorem semRun_inv {K : Nat} : ∀ (evs : List SemEvent) (s s' : SemState),
    SemInv K s → semRun K evs s = some s' → SemInv K s' := by
  intro evs
  induction evs with
  | nil =>
      intro s s' hinv hrun
      simp [semRun, List.foldlM] at hrun
      rw [← hrun]
      exact hinv
  | cons e t ih =>
      intro s s' hinv hrun
      simp only [semRun, List.foldlM_cons] at hrun
      cases hstep : semStep K s e with
      | none => rw [hstep] at hrun; cases hrun
      | some s1 =>
          rw [hstep] at hrun
          exact ih s1 s' (semStep_inv hinv hstep) hrun

/-- The semaphore events a cover-generation job performs, mirroring the
job body
```
await covergenAcquire()
try { await new Promise(...spawn, timeout, exit...) }
catch (err) { ...backoff... }
finally { covergenRelease() }
```
The acquire is the fast path or enqueue-then-resume; the `finally`
clause performs the release after every body outcome. -/
def coverJobSemEvents (i : Nat) (fast : Bool) (outcome : RenderOutcome) : List SemEvent :=
  (if fast then [SemEvent.acquireFast i] else [SemEvent.acquireWait i, SemEvent.resume]) ++
    (match outcome with
      | .success => []
      | .exitNonzero _ => []
      | .spawnError => []
      | .timeout => []) ++
    [SemEvent.release i]

/-- C3: in every reachable state of the covergen gate, at most `K`
renderer invocations hold a slot (so at most `K` external processes are
in flight); slots are granted to waiters in FIFO order (the grant history
is always a prefix of the enqueue history); a call past the bound cannot
take the fast acquire path and must wait; and a job's event sequence
ends with a release for every renderer outcome, including failure and
timeout. -/
theorem covergen_bound_c3 :
    (∀ (K : Nat) (evs : List SemEvent) (s' : SemState),
      semRun K evs semInit = some s' →
        s'.holders.length ≤ K ∧ s'.active ≤ K ∧
        ∃ rest, s'.granted ++ rest = s'.enqueued) ∧
    (∀ (K : Nat) (s : SemState) (i : Nat), K ≤ s.active →
      semStep K s (.acquireFast i) = none) ∧
    (∀ (i : Nat) (fast : Bool) (outcome : RenderOutcome),
      ∃ pre, coverJobSemEvents i fast outcome = pre ++ [SemEvent.release i]) := by
  refine ⟨?_, ?_, ?_⟩
  · intro K evs s' hrun
    have hinv0 : SemInv K semInit := by
      refine ⟨rfl, by simp [semInit], rfl⟩
    obtain ⟨hcount, hbound, hfifo⟩ := semRun_inv evs semInit s' hinv0 hrun
    refine ⟨by omega, by omega, ⟨s'.woken ++ s'.waiters, ?_⟩⟩
    rw [← List.append_assoc]
    exact hfifo
  · intro K s i hK
    simp [semStep]
    intro _
    omega
  · intro i fast outcome
    cases fast <;> cases outcome <;> exact ⟨_, rfl⟩

/-- Witness for `covergen_bound_c3`: with `K = 2`, three overlapping
jobs (two fast acquires, one waiter who is granted the slot released by
job 0) reach a state with no holder left, and the grant history equals
the enqueue history. -/
theorem covergen_bound_c3_witness :
    ∃ s' : SemState,
      semRun 2 [.acquireFast 0, .acquireFast 1, .acquireWait 2,
        .release 0, .resume, .release 1, .release 2] semInit = some s' ∧
      s'.holders.length ≤ 2 ∧ s'.active ≤ 2 ∧
      ∃ rest, s'.granted ++ rest = s'.enqueued := by
  refine ⟨⟨0, [], [], [], [2], [2]⟩, by decide, ?_⟩
  exact (covergen_bound_c3.1 2
    [.acquireFast 0, .acquireFast 1, .acquireWait 2,
      .release 0, .resume, .release 1, .release 2]
    ⟨0, [], [], [], [2], [2]⟩ (by decide))

/-! ## Cover generation coordinator: per-id dedup and failure backoff

`generateCoverWithPython` runs a synchronous prefix (renderer/script/pdf
checks, backoff check, in-flight lookup, job creation and registration)
with no `await` between the lookup and `covergenInFlight.set(id, job)`,
so the whole prefix is one atomic step of the event loop.  The job's end
(`catch` setting the 10-minute backoff on failure, `.finally` deleting
the in-flight entry) is modelled as one completion step. -/

/-- Static configuration of the coordinator: whether `COVERGEN_PYTHON`
resolved to a program and whether `COVERGEN_SCRIPT` exists. -/
structure CovConfig where
  pythonConfigured : Bool
  scriptExists : Bool
deriving DecidableEq

/-- In-memory coordinator state: `covergenFailures` (id → retry-after
timestamp in ms), `covergenInFlight` (id → job token), and a counter
producing fresh job tokens. -/
structure CovState where
  failures : List (String × Nat)
  inFlight : List (String × Nat)
  nextJob : Nat
deriving DecidableEq

/-- `Map.get`: first binding for the key, if any. -/
def lookupId (m : List (String × Nat)) (id : String) : Option Nat :=
  (m.find? (fun p => p.1 == id)).map (fun p => p.2)

/-- `Map.set`: bind `id` to `v`, dropping any previous binding. -/
def setId (m : List (String × Nat)) (id : String) (v : Nat) : List (String × Nat) :=
  (id, v) :: m.filter (fun p => p.1 != id)

/-- `if (failedUntil && failedUntil > now) return` — JavaScript
truthiness: the backoff applies when the stored timestamp is nonzero and
strictly in the future. -/
def backoffActive (failedUntil : Option Nat) (now : Nat) : Bool :=
  match failedUntil with
  | some t => if t ≠ 0 ∧ now < t then true else false
  | none => false

/-- What the synchronous prefix of `generateCoverWithPython` returned:
`undefined` before any job was involved (`skip`), the existing in-flight
job's promise (`join`), or a newly created and registered job
(`start`). -/
inductive CallResult where
  | skip : CallResult
  | join (job : Nat) : CallResult
  | start (job : Nat) : CallResult
deriving DecidableEq

/-- The synchronous prefix of `generateCoverWithPython`:
```
if (!COVERGEN_PYTHON) return
if (!fs.existsSync(COVERGEN_SCRIPT)) return
if (!fs.existsSync(pdfPath)) return
const failedUntil = covergenFailures.get(id)
if (failedUntil && failedUntil > now) return
const existing = covergenInFlight.get(id)
if (existing) return existing
const job = ...
covergenInFlight.set(id, job)
return job
```
-/
def generateCoverCall (cfg : CovConfig) (pdfExists : Bool) (now : Nat)
    (id : String) (st : CovState) : CallResult × CovState :=
  if cfg.pythonConfigured = false then (.skip, st)
  else if cfg.scriptExists = false then (.skip, st)
  else if pdfExists = false then (.skip, st)
  else if backoffActive (lookupId st.failures id) now then (.skip, st)
  else
    match lookupId st.inFlight id with
    | some j => (.join j, st)
    | none =>
        (.start st.nextJob,
          { st with
            inFlight := setId st.inFlight id st.nextJob,
            nextJob := st.nextJob + 1 })

/-- A job's completion at time `tEnd`: on any failure the `catch` block
sets `covergenFailures.set(id, Date.now() + 10 * 60 * 1000)` and the
error goes no further; the `.finally` removes the id from
`covergenInFlight`.  Total: completion never raises. -/
def jobComplete (id : String) (outcome : RenderOutcome) (tEnd : Nat)
    (st : CovState) : CovState :=
  let st1 := match outcome with
    | .success => st
    | _ => { st with failures := setId st.failures id (tEnd + 10 * 60 * 1000) }
  { st1 with inFlight := st1.inFlight.filter (fun p => p.1 != id) }

/-- Coordinator events: a call into `generateCoverWithPython` (with its
environment) or a job completion. -/
inductive CovEvent where
  | call (python script pdfExists : Bool) (now : Nat) (id : String)
  | complete (id : String) (outcome : RenderOutcome) (tEnd : Nat)

def covStep (st : CovState) : CovEvent → CovState
  | .call py sc pdf now id => (generateCoverCall ⟨py, sc⟩ pdf now id st).2
  | .complete id o t => jobComplete id o t st

def covRun (evs : List CovEvent) (st : CovState) : CovState :=
  evs.foldl covStep st

def covInit : CovState := ⟨[], [], 0⟩

theorem lookupId_none_not_mem {m : List (String × Nat)} {id : String}
    (h : lookupId m id = none) : ∀ p ∈ m, p.1 ≠ id := by
  intro p hp
  cases hf : m.find? (fun q => q.1 == id) with
  | some q =>
      unfold lookupId at h
      rw [hf] at h
      cases h
  | none =>
      have := List.find?_eq_none.mp hf p hp
      simpa using this

theorem lookupId_filter_ne (m : List (String × Nat)) (id : String) :
    lookupId (m.filter (fun p => p.1 != id)) id = none := by
  unfold lookupId
  rw [List.find?_eq_none.mpr]
  · rfl
  · intro p hp
    have := List.of_mem_filter hp
    simpa using this

theorem lookupId_setId_self (m : List (String × Nat)) (id : String) (v : Nat) :
    lookupId (setId m id v) id = some v := by
  simp [lookupId, setId]

/-- A call either leaves the in-flight map unchanged or, only when no
job for the id existed, registers exactly one new entry for that id. -/
theorem generateCoverCall_inFlight (cfg : CovConfig) (pdfExists : Bool)
    (now : Nat) (id : String) (st : CovState) :
    (generateCoverCall cfg pdfExists now id st).2.inFlight = st.inFlight ∨
    (lookupId st.inFlight id = none ∧
      (generateCoverCall cfg pdfExists now id st).2.inFlight =
        setId st.inFlight id st.nextJob) := by
  unfold generateCoverCall
  split
  · exact Or.inl rfl
  split
  · exact Or.inl rfl
  split
  · exact Or.inl rfl
  split
  · exact Or.inl rfl
  split
  · exact Or.inl rfl
  · rename_i hnone
    exact Or.inr ⟨hnone, rfl⟩

theorem covStep_nodup {st : CovState} {e : CovEvent}
    (h : (st.inFlight.map Prod.fst).Nodup) :
    (((covStep st e).inFlight).map Prod.fst).Nodup := by
  cases e with
  | call py sc pdf now id =>
      rcases generateCoverCall_inFlight ⟨py, sc⟩ pdf now id st with heq | ⟨hnone, heq⟩
      · show ((generateCoverCall ⟨py, sc⟩ pdf now id st).2.inFlight.map Prod.fst).Nodup
        rw [heq]; exact h
      · show ((generateCoverCall ⟨py, sc⟩ pdf now id st).2.inFlight.map Prod.fst).Nodup
        rw [heq]
        simp only [setId, List.map_cons, List.nodup_cons]
        constructor
        · intro hmem
          obtain ⟨p, hp, hfst⟩ := List.mem_map.mp hmem
          have hpm : p ∈ st.inFlight := List.mem_of_mem_filter hp
          exact lookupId_none_not_mem hnone p hpm hfst
        · exact List.Nodup.sublist
            (List.Sublist.map Prod.fst (List.filter_sublist st.inFlight)) h
  | complete id o t =>
      show ((jobComplete id o t st).inFlight.map Prod.fst).Nodup
      unfold jobComplete
      cases o <;>
        exact List.Nodup.sublist
          (List.Sublist.map Prod.fst (List.filter_sublist _)) h

/-- C4: (a) in every state reachable from the empty coordinator, the
in-flight map holds at most one job per document id; (b) while a job for
an id is registered, a further call for that id never starts a second
job — under the guards that let it reach the dedup check (renderer
configured, script and source pdf present, no active backoff) it returns
exactly the in-flight job, unchanged state, so all such callers observe
that same job's completion; (c) completion removes the id from the
in-flight map. -/
theorem covergen_dedup_c4 :
    (∀ evs : List CovEvent,
      (((covRun evs covInit).inFlight).map Prod.fst).Nodup) ∧
    (∀ (cfg : CovConfig) (pdfExists : Bool) (now : Nat) (id : String)
        (st : CovState) (j : Nat),
      lookupId st.inFlight id = some j →
        ((generateCoverCall cfg pdfExists now id st).1 = .skip ∨
          (generateCoverCall cfg pdfExists now id st).1 = .join j) ∧
        (generateCoverCall cfg pdfExists now id st).2 = st ∧
        (cfg.pythonConfigured = true → cfg.scriptExists = true →
          pdfExists = true →
          backoffActive (lookupId st.failures id) now = false →
          (generateCoverCall cfg pdfExists now id st).1 = .join j)) ∧
    (∀ (id : String) (o : RenderOutcome) (t : Nat) (st : CovState),
      lookupId (jobComplete id o t st).inFlight id = none) := by
  refine ⟨?_, ?_, ?_⟩
  · intro evs
    have : ∀ (l : List CovEvent) (st : CovState),
        ((st.inFlight.map Prod.fst).Nodup) →
        (((covRun l st).inFlight).map Prod.fst).Nodup := by
      intro l
      induction l with
      | nil => intro st h; exact h
      | cons e t ih =>
          intro st h
          exact ih (covStep st e) (covStep_nodup h)
    exact this evs covInit (by simp [covInit])
  · intro cfg pdfExists now id st j hj
    obtain ⟨py, sc⟩ := cfg
    cases py <;> cases sc <;> cases pdfExists <;>
      cases hb : backoffActive (lookupId st.failures id) now <;>
        simp [generateCoverCall, hj, hb]
  · intro id o t st
    cases o <;> exact lookupId_filter_ne _ _

/-- Witness for `covergen_dedup_c4`: with a job `7` in flight for id
`"a"` and all guards passing, a second call joins job `7` and leaves the
state unchanged. -/
theorem covergen_dedup_c4_witness :
    (generateCoverCall ⟨true, true⟩ true 0 "a" ⟨[], [("a", 7)], 8⟩).1 =
      CallResult.join 7 ∧
    (generateCoverCall ⟨true, true⟩ true 0 "a" ⟨[], [("a", 7)], 8⟩).2 =
      (⟨[], [("a", 7)], 8⟩ : CovState) := by
  have h := (covergen_dedup_c4.2.1 ⟨true, true⟩ true 0 "a" ⟨[], [("a", 7)], 8⟩ 7
    (by rfl))
  exact ⟨h.2.2 rfl rfl rfl rfl, h.2.1⟩

/-- C5: after a renderer failure (non-zero exit, spawn error, or
timeout) completing at time `t`, the backoff for the id is set to
`t + 10` minutes and completion is a total state update (the error is
absorbed, not raised); every call for that id while `now` is strictly
inside the backoff window is a no-op that starts no job and changes no
state; and once the window has passed, a call with the other guards
satisfied and no job in flight does start a renderer job. -/
theorem covergen_backoff_c5 :
    (∀ (id : String) (o : RenderOutcome) (t : Nat) (st : CovState),
      o ≠ .success →
        lookupId (jobComplete id o t st).failures id = some (t + 10 * 60 * 1000)) ∧
    (∀ (cfg : CovConfig) (pdfExists : Bool) (now : Nat) (id : String)
        (st : CovState) (t : Nat),
      lookupId st.failures id = some t → t ≠ 0 → now < t →
        generateCoverCall cfg pdfExists now id st = (.skip, st)) ∧
    (∀ (now : Nat) (id : String) (st : CovState) (t : Nat),
      lookupId st.failures id = some t → t ≤ now →
      lookupId st.inFlight id = none →
        (generateCoverCall ⟨true, true⟩ true now id st).1 = .start st.nextJob) := by
  refine ⟨?_, ?_, ?_⟩
  · intro id o t st ho
    cases o with
    | success => exact absurd rfl ho
    | exitNonzero c => exact lookupId_setId_self _ _ _
    | spawnError => exact lookupId_setId_self _ _ _
    | timeout => exact lookupId_setId_self _ _ _
  · intro cfg pdfExists now id st t ht ht0 hnow
    have hb : backoffActive (lookupId st.failures id) now = true := by
      rw [ht]
      simp [backoffActive, ht0, hnow]
    obtain ⟨py, sc⟩ := cfg
    cases py <;> cases sc <;> cases pdfExists <;> simp [generateCoverCall, hb]
  · intro now id st t ht hle hnone
    have hnc : ¬(t ≠ 0 ∧ now < t) := fun hc => absurd hc.2 (by omega)
    have hb : backoffActive (lookupId st.failures id) now = false := by
      rw [ht]
      simp [backoffActive, hnc]
    simp [generateCoverCall, hb, hnone]

/-- Witness for `covergen_backoff_c5`: a timeout at t=1000 sets the
backoff to 601000; a call at t=1001 (inside the window) is a no-op; a
call at t=601000 (window passed) starts a job. -/
theorem covergen_backoff_c5_witness :
    lookupId (jobComplete "a" .timeout 1000 ⟨[], [("a", 0)], 1⟩).failures "a" =
      some 601000 ∧
    generateCoverCall ⟨true, true⟩ true 1001 "a" ⟨[("a", 601000)], [], 1⟩ =
      (.skip, ⟨[("a", 601000)], [], 1⟩) ∧
    (generateCoverCall ⟨true, true⟩ true 601000 "a" ⟨[("a", 601000)], [], 1⟩).1 =
      .start 1 := by
  refine ⟨?_, ?_, ?_⟩
  · exact covergen_backoff_c5.1 "a" .timeout 1000 ⟨[], [("a", 0)], 1⟩ (by decide)
  · exact covergen_backoff_c5.2.1 ⟨true, true⟩ true 1001 "a"
      ⟨[("a", 601000)], [], 1⟩ 601000 (by rfl) (by decide) (by decide)
  · exact covergen_backoff_c5.2.2 601000 "a" ⟨[("a", 601000)], [], 1⟩ 601000
      (by rfl) (by decide) (by rfl)

/-! ## Document directory manager: id validation and path resolution

```
function isValidId(id: string): boolean {
  return /^[a-f0-9-]{36}$/i.test(id)
}
function resolvePaperDir(id: string): string {
  const target = path.join(PAPERS_DIR, id)
  const resolved = path.resolve(target)
  const base = path.resolve(PAPERS_DIR)
  if (!resolved.startsWith(base)) { throw new Error('Invalid path') }
  return resolved
}
```
Every HTTP handler checks `isValidId` before calling `resolvePaperDir`
and turns both an invalid shape and a thrown `Invalid path` into a 404;
the document-directory resolve operation is that composition.  Paths are
modelled as lists of components; `path.join`/`path.resolve`
normalization processes `.`/`..`/empty segments; the `startsWith` check
compares the rendered path strings character by character, as the source
does. -/

/-- A character matched by the character class `[a-f0-9-]` with the `i`
flag. -/
def isIdChar (c : Char) : Bool :=
  decide (('a' ≤ c ∧ c ≤ 'f') ∨ ('A' ≤ c ∧ c ≤ 'F') ∨ ('0' ≤ c ∧ c ≤ '9') ∨ c = '-')

/-- `/^[a-f0-9-]{36}$/i.test(id)`: exactly 36 characters, each from the
class. -/
def isValidId (s : String) : Bool :=
  s.length == 36 && s.data.all isIdChar

/-- Split a path string on `/` (how `path.join` interprets separators in
its arguments). -/
def splitSlashAux : List Char → List Char → List String
  | [], acc => [String.mk acc.reverse]
  | c :: rest, acc =>
      if c = '/' then String.mk acc.reverse :: splitSlashAux rest []
      else splitSlashAux rest (c :: acc)

def splitSlash (s : String) : List String := splitSlashAux s.data []

/-- `path.resolve` normalization for an absolute path given as segments:
drop empty and `.` segments, let `..` pop the previous segment (or
nothing at the root). -/
def normalizeAbs (comps : List String) : List String :=
  comps.foldl
    (fun acc c =>
      if c = "" ∨ c = "." then acc
      else if c = ".." then acc.dropLast
      else acc ++ [c])
    []

/-- Render an absolute path from its segments, `'/'` before each
segment, as the strings `resolved` and `base` that the source compares
with `startsWith`. -/
def renderPath (comps : List String) : List Char :=
  comps.flatMap (fun c => '/' :: c.data)

/-- `resolvePaperDir` over a storage root `base` (the resolved
`PAPERS_DIR` segments): join the id under the root, resolve, and fail
(`none` = the thrown `Invalid path`) unless the resolved string starts
with the root string. -/
def resolvePaperDir (base : List String) (id : String) : Option (List String) :=
  let resolved := normalizeAbs (base ++ splitSlash id)
  if (renderPath (normalizeAbs base)).isPrefixOf (renderPath resolved) then some resolved
  else none

/-- The document-directory resolve operation as every caller performs
it: shape check first, then `resolvePaperDir`; `none` is the
`InvalidPath` failure. -/
def resolveDocDir (base : List String) (id : String) : Option (List String) :=
  if isValidId id = false then none else resolvePaperDir base id

/-- The `GET /papers/:id` handler status: invalid shape → 404; a thrown
`Invalid path` is caught → 404; a missing/unreadable metadata file →
404; otherwise 200. -/
def paperMetadataStatus (base : List String) (id : String)
    (metadataReadable : Bool) : Nat :=
  if isValidId id = false then 404
  else
    match resolvePaperDir base id with
    | none => 404
    | some _ => if metadataReadable then 200 else 404

theorem stringMk_data (s : String) : String.mk s.data = s := by
  cases s
  rfl

theorem splitSlashAux_no_slash :
    ∀ (l acc : List Char), (∀ c ∈ l, c ≠ '/') →
      splitSlashAux l acc = [String.mk (acc.reverse ++ l)] := by
  intro l
  induction l with
  | nil =>
      intro acc _
      simp [splitSlashAux]
  | cons c rest ih =>
      intro acc h
      have hc : c ≠ '/' := h c (List.mem_cons_self c rest)
      simp only [splitSlashAux, if_neg hc]
      rw [ih (c :: acc) (fun d hd => h d (List.mem_cons_of_mem c hd))]
      simp

theorem normalizeAbs_snoc (xs : List String) (c : String)
    (h0 : c ≠ "") (h1 : c ≠ ".") (h2 : c ≠ "..") :
    normalizeAbs (xs ++ [c]) = normalizeAbs xs ++ [c] := by
  unfold normalizeAbs
  rw [List.foldl_append]
  simp [h0, h1, h2]

theorem isPrefixOf_append_self :
    ∀ (l t : List Char), l.isPrefixOf (l ++ t) = true := by
  intro l t
  induction l with
  | nil => simp [List.isPrefixOf]
  | cons c rest ih => simp [List.isPrefixOf, ih]

theorem validId_parts {id : String} (h : isValidId id = true) :
    id.length = 36 ∧ ∀ c ∈ id.data, isIdChar c = true := by
  unfold isValidId at h
  rw [Bool.and_eq_true] at h
  refine ⟨by simpa using h.1, ?_⟩
  intro c hc
  exact List.all_eq_true.mp h.2 c hc

theorem validId_no_slash {id : String} (h : isValidId id = true) :
    ∀ c ∈ id.data, c ≠ '/' := by
  intro c hc heq
  have := (validId_parts h).2 c hc
  rw [heq] at this
  exact absurd this (by decide)

theorem validId_length {id : String} (h : isValidId id = true) : id.length = 36 :=
  (validId_parts h).1

/-- For a shape-valid id the resolved directory is exactly the root plus
one new segment. -/
theorem resolvePaperDir_valid (base : List String) (hnb : normalizeAbs base = base)
    {id : String} (h : isValidId id = true) :
    resolvePaperDir base id = some (base ++ [id]) := by
  have hlen := validId_length h
  have hne : id ≠ "" := by
    intro heq
    rw [heq] at hlen
    exact absurd hlen (by decide)
  have hnd : id ≠ "." := by
    intro heq
    rw [heq] at hlen
    exact absurd hlen (by decide)
  have hndd : id ≠ ".." := by
    intro heq
    rw [heq] at hlen
    exact absurd hlen (by decide)
  have hsplit : splitSlash id = [id] := by
    unfold splitSlash
    rw [splitSlashAux_no_slash id.data [] (validId_no_slash h)]
    simp [stringMk_data]
  have hres : normalizeAbs (base ++ splitSlash id) = base ++ [id] := by
    rw [hsplit, normalizeAbs_snoc base id hne hnd hndd, hnb]
  unfold resolvePaperDir
  rw [hres, hnb]
  have hpre : (renderPath base).isPrefixOf (renderPath (base ++ [id])) = true := by
    have : renderPath (base ++ [id]) = renderPath base ++ ('/' :: id.data) := by
      simp [renderPath]
    rw [this]
    exact isPrefixOf_append_self _ _
  simp [hpre]

/-- C7: resolving a document directory fails with `InvalidPath` for
every id that fails the 36-character hex/hyphen shape check (and the
HTTP handler surfaces this as a 404, not a crash); every id that passes
the shape check resolves to the root plus exactly one new segment; and
every successfully resolved path lies strictly inside the storage
root — never outside it. -/
theorem resolve_path_safety_c7 (base : List String) (hnb : normalizeAbs base = base) :
    (∀ id : String, isValidId id = false →
      resolveDocDir base id = none ∧
      (∀ m : Bool, paperMetadataStatus base id m = 404)) ∧
    (∀ id : String, isValidId id = true →
      resolveDocDir base id = some (base ++ [id])) ∧
    (∀ (id : String) (p : List String), resolveDocDir base id = some p →
      ∃ rest, rest ≠ [] ∧ p = base ++ rest) := by
  refine ⟨?_, ?_, ?_⟩
  · intro id hid
    refine ⟨by simp [resolveDocDir, hid], ?_⟩
    intro m
    simp [paperMetadataStatus, hid]
  · intro id hid
    unfold resolveDocDir
    rw [hid]
    simp only [Bool.true_eq_false, if_false]
    exact resolvePaperDir_valid base hnb hid
  · intro id p hp
    unfold resolveDocDir at hp
    by_cases hid : isValidId id = true
    · rw [resolvePaperDir_valid base hnb hid] at hp
      · refine ⟨[id], by simp, ?_⟩
        rw [hid] at hp
        simp at hp
        exact hp.symm
    · have : isValidId id = false := by
        cases hv : isValidId id
        · rfl
        · exact absurd hv hid
      rw [this] at hp
      simp at hp

/-- Witness for `resolve_path_safety_c7` at a concrete root
`/data/papers`: a traversal attempt and a malformed id both fail (and
get a 404), while a well-formed 36-character id resolves to a directory
strictly inside the root. -/
theorem resolve_path_safety_c7_witness :
    resolveDocDir ["data", "papers"] "../../etc" = none ∧
    paperMetadataStatus ["data", "papers"] "not-a-valid-id" true = 404 ∧
    resolveDocDir ["data", "papers"] "0123456789abcdef0123456789abcdef0123" =
      some ["data", "papers", "0123456789abcdef0123456789abcdef0123"] := by
  have h := resolve_path_safety_c7 ["data", "papers"] (by decide)
  refine ⟨?_, ?_, ?_⟩
  · exact (h.1 "../../etc" (by decide)).1
  · exact (h.1 "not-a-valid-id" (by decide)).2 true
  · exact h.2.1 "0123456789abcdef0123456789abcdef0123" (by decide)

/-! ## Placeholder detector -/

/-- The PNG signature bytes `[0x89, 0x50, 0x4e, 0x47, 0x0d, 0x0a, 0x1a, 0x0a]`. -/
def PNG_SIG : List Nat := [137, 80, 78, 71, 13, 10, 26, 10]

/-- `'I' 'H' 'D' 'R'` in ascii. -/
def IHDR_BYTES : List Nat := [73, 72, 68, 82]

/-- `buf.readUInt32BE(off)`. -/
def readUInt32BE (buf : List Nat) (off : Nat) : Nat :=
  buf.getD off 0 * 16777216 + buf.getD (off + 1) 0 * 65536 +
    buf.getD (off + 2) 0 * 256 + buf.getD (off + 3) 0

/-- `pngDimensionsFromHeader` from `index.ts`: needs at least 29 bytes,
the PNG signature at 0, `IHDR` at 12; reads width at 16 and height at
20 and rejects dimensions below 1.  (`Number.isFinite` is always true
for values read from a buffer.) -/
def pngDimensionsFromHeader (buf : List Nat) : Option (Nat × Nat) :=
  if buf.length < 29 then none
  else if buf.take 8 ≠ PNG_SIG then none
  else if (buf.drop 12).take 4 ≠ IHDR_BYTES then none
  else
    let width := readUInt32BE buf 16
    let height := readUInt32BE buf 20
    if width < 1 ∨ height < 1 then none
    else some (width, height)

/-- The 64-byte header read `Buffer.alloc(64)` + `fd.read(head, 0, 64, 0)`:
the first (up to) 64 bytes of the file, zero-padded to 64. -/
def headBytes (bytes : List Nat) : List Nat :=
  bytes.take 64 ++ List.replicate (64 - (bytes.take 64).length) 0

/-- `isPlaceholderCover` from `index.ts` on a readable file (`none` is an
unreadable path: `stat`/`open` threw and the `catch` returns false):
byte-for-byte comparison against the static placeholder (guarded by a
size check), then the header-only 1×1 dimension check. -/
def isPlaceholderCover (placeholder : List Nat) (file : Option (List Nat)) : Bool :=
  match file with
  | none => false
  | some bytes =>
      if bytes.length = placeholder.length ∧ bytes = placeholder then true
      else
        match pngDimensionsFromHeader (headBytes bytes) with
        | some (w, h) => decide (w = 1 ∧ h = 1)
        | none => false

/-- C9: `isPlaceholderCover` returns true on a readable file exactly when
the file byte-for-byte equals the static placeholder image or its PNG
header declares 1×1 dimensions; the dimension check depends only on the
first 64 bytes of the file (signature plus IHDR fields, no full
decode); and an unreadable file, or one whose header is not a valid PNG
header (and which is not the placeholder), yields false. -/
theorem placeholder_detector_c9 (placeholder : List Nat) :
    (∀ bytes : List Nat,
      isPlaceholderCover placeholder (some bytes) = true ↔
        (bytes = placeholder ∨ pngDimensionsFromHeader (headBytes bytes) = some (1, 1))) ∧
    isPlaceholderCover placeholder none = false ∧
    (∀ bytes : List Nat, headBytes bytes = headBytes (bytes.take 64)) ∧
    (∀ bytes : List Nat, (headBytes bytes).length = 64) := by
  refine ⟨?_, rfl, ?_, ?_⟩
  · intro bytes
    simp only [isPlaceholderCover]
    by_cases heq : bytes = placeholder
    · subst heq
      simp
    · have hcond : ¬(bytes.length = placeholder.length ∧ bytes = placeholder) :=
        fun hc => heq hc.2
      rw [if_neg hcond]
      cases hd : pngDimensionsFromHeader (headBytes bytes) with
      | none =>
          simp [heq]
      | some wh =>
          obtain ⟨w, h⟩ := wh
          constructor
          · intro ht
            refine Or.inr ?_
            have hwh : w = 1 ∧ h = 1 := of_decide_eq_true ht
            rw [hwh.1, hwh.2]
          · intro hor
            rcases hor with hb | hdim
            · exact absurd hb heq
            · cases hdim
              decide
  · intro bytes
    unfold headBytes
    rw [List.take_take]
    simp
  · intro bytes
    unfold headBytes
    have hle : (bytes.take 64).length ≤ 64 := by
      rw [List.length_take]
      omega
    rw [List.length_append, List.length_replicate]
    omega

/-- Witness for `placeholder_detector_c9`: a 24-byte file holding a PNG
signature and an IHDR chunk declaring 1×1 is detected as a placeholder
even though it differs from the static image; a file of junk bytes is
not. -/
theorem placeholder_detector_c9_witness :
    isPlaceholderCover [9, 9, 9]
      (some ([137, 80, 78, 71, 13, 10, 26, 10, 0, 0, 0, 13,
             73, 72, 68, 82, 0, 0, 0, 1, 0, 0, 0, 1])) = true ∧
    isPlaceholderCover [9, 9, 9] (some [1, 2, 3]) = false := by
  constructor
  · exact ((placeholder_detector_c9 [9, 9, 9]).1
      ([137, 80, 78, 71, 13, 10, 26, 10, 0, 0, 0, 13,
        73, 72, 68, 82, 0, 0, 0, 1, 0, 0, 0, 1])).mpr (Or.inr (by decide))
  · refine (Bool.not_eq_true _).mp ?_
    intro hc
    have := ((placeholder_detector_c9 [9, 9, 9]).1 [1, 2, 3]).mp hc
    rcases this with h | h
    · exact absurd h (by decide)
    · exact absurd h (by decide)

/-! ## Cover fetch endpoint (`GET /papers/:id/cover`) -/

/-- What the cover endpoint sends: the cover file's bytes via
`res.sendFile`, the built-in static placeholder PNG via `res.send`, or
an empty 404 body. -/
inductive CoverBody where
  | png (bytes : List Nat) : CoverBody
  | placeholderPng : CoverBody
  | empty : CoverBody
deriving DecidableEq

/-- PNG content: a cover file or the static placeholder (itself a PNG). -/
def CoverBody.isPng : CoverBody → Bool
  | .png _ => true
  | .placeholderPng => true
  | .empty => false

/-- The `GET /papers/:id/cover` handler:
```
if (!id || !isValidId(id)) return res.status(404).end()
try {
  ... const exists = await fsp.access(coverPath).then(() => true).catch(() => false)
  res.setHeader(...); res.type('png')
  if (!exists || (await isPlaceholderCover(coverPath))) {
    await generateCoverWithPython(id, pdfPath, coverPath)
    const generatedOk = await fsp.access(coverPath)
      .then(async () => !(await isPlaceholderCover(coverPath)))
      .catch(() => false)
    if (!generatedOk) { res.send(PLACEHOLDER_COVER_PNG); return }
  }
  await sendFileAsync(res, coverPath)
} catch {
  res.status(200).type('png').send(PLACEHOLDER_COVER_PNG)
}
```
`coverBefore` is the cover file when the handler starts, `coverAfter`
the file after `generateCoverWithPython` returns (generation is a total
operation: its errors are absorbed, cf. `jobComplete`); `sendOk` is
whether `sendFile` succeeds (its failure lands in the catch, which
answers 200 with the placeholder).  `resolvePaperDir` cannot throw for a
shape-valid id (`resolvePaperDir_valid`), so it does not appear. -/
def coverEndpoint (placeholder : List Nat) (id : String)
    (coverBefore coverAfter : Option (List Nat)) (sendOk : Bool) :
    Nat × CoverBody :=
  if isValidId id = false then (404, .empty)
  else if coverBefore.isSome = false ∨ isPlaceholderCover placeholder coverBefore = true then
    if (coverAfter.isSome && !isPlaceholderCover placeholder coverAfter) = false then
      (200, .placeholderPng)
    else
      match coverAfter, sendOk with
      | some bytes, true => (200, .png bytes)
      | _, _ => (200, .placeholderPng)
  else
    match coverBefore, sendOk with
    | some bytes, true => (200, .png bytes)
    | _, _ => (200, .placeholderPng)

/-- C10: for every shape-valid id the cover endpoint answers 200 with
PNG content on every path: the existing cover when it is valid and
non-placeholder and the send succeeds, the freshly generated cover when
generation produced a valid non-placeholder file, and the static
placeholder otherwise (missing cover, renderer unavailable or failed,
or send error) — never a 4xx/5xx. -/
theorem cover_endpoint_c10 (placeholder : List Nat) (id : String)
    (coverBefore coverAfter : Option (List Nat)) (sendOk : Bool)
    (hvalid : isValidId id = true) :
    (coverEndpoint placeholder id coverBefore coverAfter sendOk).1 = 200 ∧
    ((coverEndpoint placeholder id coverBefore coverAfter sendOk).2).isPng = true ∧
    (∀ bytes : List Nat,
      (coverEndpoint placeholder id coverBefore coverAfter sendOk).2 = .png bytes →
        some bytes = coverBefore ∨ some bytes = coverAfter) ∧
    (∀ bytes : List Nat, coverBefore = some bytes →
      isPlaceholderCover placeholder coverBefore = false → sendOk = true →
        (coverEndpoint placeholder id coverBefore coverAfter sendOk).2 = .png bytes) ∧
    (coverBefore = none → coverAfter = none →
      (coverEndpoint placeholder id coverBefore coverAfter sendOk).2 = .placeholderPng) := by
  have hv : ¬ (isValidId id = false) := by
    rw [hvalid]
    decide
  refine ⟨?_, ?_, ?_, ?_, ?_⟩
  · unfold coverEndpoint
    rw [if_neg hv]
    split
    · split
      · rfl
      · cases coverAfter <;> cases sendOk <;> rfl
    · cases coverBefore <;> cases sendOk <;> rfl
  · unfold coverEndpoint
    rw [if_neg hv]
    split
    · split
      · rfl
      · cases coverAfter <;> cases sendOk <;> rfl
    · cases coverBefore <;> cases sendOk <;> rfl
  · intro bytes hb
    unfold coverEndpoint at hb
    rw [if_neg hv] at hb
    revert hb
    split
    · split
      · intro hb
        cases hb
      · cases coverAfter with
        | none => cases sendOk <;> (intro hb; cases hb)
        | some b =>
            cases sendOk with
            | false => intro hb; cases hb
            | true =>
                intro hb
                cases hb
                exact Or.inr rfl
    · cases coverBefore with
      | none => cases sendOk <;> (intro hb; cases hb)
      | some b =>
          cases sendOk with
          | false => intro hb; cases hb
          | true =>
              intro hb
              cases hb
              exact Or.inl rfl
  · intro bytes hbefore hnp hsend
    unfold coverEndpoint
    rw [if_neg hv, hbefore]
    rw [hbefore] at hnp
    simp only [hnp, Option.isSome_some]
    rw [if_neg (by simp)]
    rw [hsend]
  · intro hb ha
    subst hb
    subst ha
    unfold coverEndpoint
    rw [if_neg hv]
    simp [isPlaceholderCover]

/-- Witness for `cover_endpoint_c10`: a valid id whose cover file is
missing and whose generation produced nothing still gets a 200 PNG
placeholder response. -/
theorem cover_endpoint_c10_witness :
    (coverEndpoint [9] "0123456789abcdef0123456789abcdef0123" none none true).1 = 200 ∧
    (coverEndpoint [9] "0123456789abcdef0123456789abcdef0123" none none true).2 =
      CoverBody.placeholderPng := by
  have h := cover_endpoint_c10 [9] "0123456789abcdef0123456789abcdef0123"
    none none true (by decide)
  exact ⟨h.1, h.2.2.2.2 rfl rfl⟩

/-! ## Document creation (`POST /papers`)

After validation and the fresh `crypto.randomUUID()`, the handler runs:
```
const paperDir = resolvePaperDir(id)
await fsp.mkdir(paperDir, { recursive: true })
await fsp.rename(pdfFile.path, pdfDest)
await fsp.rename(coverFile.path, coverDest)
{ // head read of the stored cover
  const dims = pngDimensionsFromHeader(head)
  if (!dims) throw new Error('Cover must be PNG')
  if (dims.width === 1 && dims.height === 1)
    await fsp.writeFile(coverDest, PLACEHOLDER_COVER_PNG)
}
await fsp.writeFile(path.join(paperDir, 'metadata.json'), ...)
await withIndexLock(async () => {
  const index = await readIndex()
  index.unshift(item)
  await writeIndex(index)   // writeIndex = atomicWriteJson(INDEX_FILE, items)
})
await mirrorToRemote(...)   // never throws (all failures caught inside)
res.status(201).json(item)
```
with a `catch` that answers 400 (`Cover must be PNG`) or 500 and never
touches the index.  Each fallible step after the `mkdir` gets an outcome
flag; the index write goes through the `atomicWriteJson` model. -/

/-- Outcomes of the fallible steps of document creation after `mkdir`:
the two renames, the stored cover's bytes (whose head the handler
checks), the placeholder rewrite of a 1×1 cover, the metadata write,
and the four filesystem calls inside `atomicWriteJson` for the index. -/
structure CreateOutcomes where
  renamePdfOk : Bool
  renameCoverOk : Bool
  coverBytes : List Nat
  rewriteOk : Bool
  writeMetaOk : Bool
  idxWriteOk : Bool
  idxRen1Ok : Bool
  idxRmOk : Bool
  idxRen2Ok : Bool

/-- Which artifacts of the document directory are in place and valid:
the content file, a cover that passed the PNG check (placeholder-
rewritten if 1×1), and the metadata snapshot. -/
structure DocDir where
  pdfMoved : Bool
  coverOk : Bool
  metaWritten : Bool
deriving DecidableEq

/-- The handler's response: 201 with the item, 400 `Cover must be PNG`,
or 500 `Upload failed`. -/
inductive CreateResult where
  | created : CreateResult
  | badCover : CreateResult
  | serverError : CreateResult
deriving DecidableEq

/-- The index file as the target of `atomicWriteJson`: absent or holding
a JSON value (an unparseable file reads as empty, like a missing one). -/
def targetState : Option Json → IndexFileState
  | none => .missing
  | some j => .content j

/-- `id` field of a stored index record. -/
def jsonId : Json → Option String
  | .obj fields =>
      match fields.find? (fun f => f.1 == "id") with
      | some (_, .str s) => some s
      | _ => none
  | _ => none

/-- Does the persisted index contain a record with this id? -/
def indexHasId (t : Option Json) (id : String) : Bool :=
  (readIndexFS (targetState t)).any (fun e => jsonId e == some id)

/-- The metadata write and the locked index insert (the steps after the
cover check); the index write is `writeIndex` = `atomicWriteJson` of the
mutated array. -/
def createTail (item : Json) (o : CreateOutcomes) (idx0 : Option Json) :
    CreateResult × DocDir × Option Json :=
  if o.writeMetaOk = false then (.serverError, ⟨true, true, false⟩, idx0)
  else
    let res := atomicWriteJson (.arr (item :: readIndexFS (targetState idx0)))
      o.idxWriteOk o.idxRen1Ok o.idxRmOk o.idxRen2Ok ⟨idx0, none⟩
    if res.1 = true then (.created, ⟨true, true, true⟩, res.2.target)
    else (.serverError, ⟨true, true, true⟩, res.2.target)

/-- Document creation after `mkdir` succeeded, with `item` the new index
record. -/
def createPaper (item : Json) (o : CreateOutcomes) (idx0 : Option Json) :
    CreateResult × DocDir × Option Json :=
  if o.renamePdfOk = false then (.serverError, ⟨false, false, false⟩, idx0)
  else if o.renameCoverOk = false then (.serverError, ⟨true, false, false⟩, idx0)
  else
    match pngDimensionsFromHeader (headBytes o.coverBytes) with
    | none => (.badCover, ⟨true, false, false⟩, idx0)
    | some (w, h) =>
        if w = 1 ∧ h = 1 then
          if o.rewriteOk = false then (.serverError, ⟨true, false, false⟩, idx0)
          else createTail item o idx0
        else createTail item o idx0

theorem atomicWriteJson_result (value : Json) (w r1 rm r2 : Bool) (fs : AWState) :
    atomicWriteJson value w r1 rm r2 fs = (true, { target := some value, tmp := none }) ∨
    ((atomicWriteJson value w r1 rm r2 fs).1 = false ∧
      ((atomicWriteJson value w r1 rm r2 fs).2.target = fs.target ∨
        (atomicWriteJson value w r1 rm r2 fs).2.target = none)) := by
  cases w <;> cases r1 <;> cases rm <;> cases r2 <;> simp [atomicWriteJson]

theorem createTail_cases (item : Json) (o : CreateOutcomes) (idx0 : Option Json) :
    createTail item o idx0 =
      (.created, ⟨true, true, true⟩,
        some (.arr (item :: readIndexFS (targetState idx0)))) ∨
    ((createTail item o idx0).1 ≠ .created ∧
      ((createTail item o idx0).2.2 = idx0 ∨ (createTail item o idx0).2.2 = none)) := by
  unfold createTail
  split
  · exact Or.inr ⟨by simp, Or.inl rfl⟩
  · rcases atomicWriteJson_result (.arr (item :: readIndexFS (targetState idx0)))
      o.idxWriteOk o.idxRen1Ok o.idxRmOk o.idxRen2Ok ⟨idx0, none⟩ with hok | ⟨hf, hk⟩
    · refine Or.inl ?_
      simp [hok]
    · refine Or.inr ⟨?_, ?_⟩
      · simp only [hf]
        simp
      · simp only [hf]
        simpa using hk

theorem createPaper_cases (item : Json) (o : CreateOutcomes) (idx0 : Option Json) :
    createPaper item o idx0 =
      (.created, ⟨true, true, true⟩,
        some (.arr (item :: readIndexFS (targetState idx0)))) ∨
    ((createPaper item o idx0).1 ≠ .created ∧
      ((createPaper item o idx0).2.2 = idx0 ∨ (createPaper item o idx0).2.2 = none)) := by
  unfold createPaper
  split
  · exact Or.inr ⟨by simp, Or.inl rfl⟩
  split
  · exact Or.inr ⟨by simp, Or.inl rfl⟩
  split
  · exact Or.inr ⟨by simp, Or.inl rfl⟩
  split
  · split
    · exact Or.inr ⟨by simp, Or.inl rfl⟩
    · exact createTail_cases item o idx0
  · exact createTail_cases item o idx0

/-- C2: creation after `mkdir` is all-or-nothing with respect to the
index.  If any later step fails (moving the content file, validating or
rewriting the cover, writing the metadata snapshot, or persisting the
index) the request answers an error and the persisted index does not
contain the new id (it is unchanged, or absent after a failed atomic
replace — in both cases without the id); the id appears in the index
only when every step succeeded and the directory is fully populated;
and a 201 means the id is in the index. -/
theorem create_atomicity_c2 (item : Json) (id : String) (o : CreateOutcomes)
    (idx0 : Option Json)
    (hid : jsonId item = some id)
    (hfresh : indexHasId idx0 id = false) :
    ((createPaper item o idx0).1 ≠ .created →
      indexHasId (createPaper item o idx0).2.2 id = false ∧
      ((createPaper item o idx0).2.2 = idx0 ∨ (createPaper item o idx0).2.2 = none)) ∧
    (indexHasId (createPaper item o idx0).2.2 id = true →
      (createPaper item o idx0).1 = .created ∧
      (createPaper item o idx0).2.1 = ⟨true, true, true⟩) ∧
    ((createPaper item o idx0).1 = .created →
      indexHasId (createPaper item o idx0).2.2 id = true) := by
  have hins : indexHasId (some (.arr (item :: readIndexFS (targetState idx0)))) id = true := by
    simp [indexHasId, targetState, readIndexFS, List.any_cons, hid]
  rcases createPaper_cases item o idx0 with hok | ⟨hne, hkeep⟩
  · rw [hok]
    refine ⟨?_, ?_, ?_⟩
    · intro hc
      exact absurd rfl hc
    · intro _
      exact ⟨rfl, rfl⟩
    · intro _
      exact hins
  · have hfalse : indexHasId (createPaper item o idx0).2.2 id = false := by
      rcases hkeep with hk | hk
      · rw [hk]
        exact hfresh
      · rw [hk]
        rfl
    refine ⟨fun _ => ⟨hfalse, hkeep⟩, ?_, fun hc => absurd hc hne⟩
    intro ht
    rw [hfalse] at ht
    cases ht

/-- Witness for `create_atomicity_c2`: with every step succeeding and a
valid 2×3 PNG cover, creation on a missing index yields 201 and the
index holds exactly the new record; with the metadata write failing the
index stays without the id. -/
theorem create_atomicity_c2_witness :
    (createPaper (.obj [("id", .str "x")])
      ⟨true, true,
        [137, 80, 78, 71, 13, 10, 26, 10, 0, 0, 0, 13,
         73, 72, 68, 82, 0, 0, 0, 2, 0, 0, 0, 3],
        true, true, true, true, true, true⟩ none).1 = CreateResult.created ∧
    indexHasId (createPaper (.obj [("id", .str "x")])
      ⟨true, true,
        [137, 80, 78, 71, 13, 10, 26, 10, 0, 0, 0, 13,
         73, 72, 68, 82, 0, 0, 0, 2, 0, 0, 0, 3],
        true, true, true, true, true, true⟩ none).2.2 "x" = true ∧
    indexHasId (createPaper (.obj [("id", .str "x")])
      ⟨true, true,
        [137, 80, 78, 71, 13, 10, 26, 10, 0, 0, 0, 13,
         73, 72, 68, 82, 0, 0, 0, 2, 0, 0, 0, 3],
        true, false, true, true, true, true⟩ none).2.2 "x" = false := by
  have h1 := create_atomicity_c2 (.obj [("id", .str "x")]) "x"
    ⟨true, true,
      [137, 80, 78, 71, 13, 10, 26, 10, 0, 0, 0, 13,
       73, 72, 68, 82, 0, 0, 0, 2, 0, 0, 0, 3],
      true, true, true, true, true, true⟩ none rfl rfl
  have h2 := create_atomicity_c2 (.obj [("id", .str "x")]) "x"
    ⟨true, true,
      [137, 80, 78, 71, 13, 10, 26, 10, 0, 0, 0, 13,
       73, 72, 68, 82, 0, 0, 0, 2, 0, 0, 0, 3],
      true, false, true, true, true, true⟩ none rfl rfl
  refine ⟨by decide, h1.2.2 (by decide), (h2.1 (by decide)).1⟩

/-- C8: reading the index is total (never throws): a missing file,
unparseable contents, or a parsed non-array value all yield the empty
index, and a parsed array yields exactly its elements. -/
theorem readIndex_total_c8 :
    (readIndexFS .missing = [] ∧ readIndexFS .notJson = []) ∧
    (∀ j : Json, j.isArr = false → readIndexFS (.content j) = []) ∧
    (∀ xs : List Json, readIndexFS (.content (.arr xs)) = xs) := by
  refine ⟨⟨rfl, rfl⟩, ?_, fun xs => rfl⟩
  intro j hj
  cases j with
  | arr xs => simp [Json.isArr] at hj
  | null => rfl
  | bool b => rfl
  | num n => rfl
  | str s => rfl
  | obj f => rfl

/-- Witness for `readIndex_total_c8` at a concrete non-array value and a
concrete array. -/
theorem readIndex_total_c8_witness :
    readIndexFS (.content (.num 5)) = [] ∧
    readIndexFS (.content (.arr [Json.null])) = [Json.null] := by
  refine ⟨(readIndex_total_c8.2.1 (.num 5) rfl), readIndex_total_c8.2.2 [Json.null]⟩

end PaperReader
